import Mathlib

/-!
FSRS v5 scheduler: a Lean model of `services/shared/srs/fsrs.py`.

Conventions of the embedding:
- Python floats are modelled as real numbers.
- Timestamps (`datetime`) are real numbers counting seconds; subtracting two
  timestamps and taking `.total_seconds()` is plain subtraction, and the wall
  clock read (`datetime.now(UTC)`) becomes an explicit `now` argument, the
  injectable clock already suggested by the source's design.
- Fallible arithmetic is explicit: Python raises `ZeroDivisionError` on
  `x / 0` and on `0.0 ** e` for negative `e`, and the two `raise ValueError`
  sites in the source are the rating check and the weight-count check, so
  every operation that can raise returns `Except FSRSError _`.
- `round(x, 2)` becomes `round2`, rounding to an integer number of
  hundredths. (Mathlib's `round` breaks ties upward while Python's float
  `round` breaks ties to even; no statement below depends on a tie.)
-/

noncomputable section

/-- Error kinds of the scheduler. `invalidRating` and `configuration` are the
two `raise ValueError` sites of the source (named as in the spec);
`domainError` stands for Python's `ZeroDivisionError` from `x / 0` or from
`0.0 ** e` with `e < 0`. -/
inductive FSRSError where
  | invalidRating
  | configuration
  | domainError
  deriving DecidableEq

/-- Python division: raises `ZeroDivisionError` on a zero denominator. -/
def divE (x y : ℝ) : Except FSRSError ℝ :=
  if y = 0 then .error .domainError else .ok (x / y)

/-- Python `b ** e` on floats: raises `ZeroDivisionError` for `0.0 ** e` with
`e < 0`, otherwise real exponentiation. (A negative base with a non-integral
exponent never occurs at the call sites reached below: every base there is
nonnegative.) -/
def rpowE (b e : ℝ) : Except FSRSError ℝ :=
  if b = 0 ∧ e < 0 then .error .domainError else .ok (b ^ e)

/-- Python `round(x, 2)`: round to hundredths. -/
def round2 (x : ℝ) : ℝ := (round (100 * x) : ℤ) / 100

/-- Python exception propagation: a raising subexpression aborts the whole
computation with its error. -/
def bindE {α β : Type} (x : Except FSRSError α)
    (f : α → Except FSRSError β) : Except FSRSError β :=
  match x with
  | .error err => .error err
  | .ok a => f a

-- FSRS v5 default parameters (17 weights), `DEFAULT_WEIGHTS` in the source.
def DEFAULT_WEIGHTS : List ℝ :=
  [0.4, 0.6, 2.4, 5.8, 4.93, 0.94, 0.86, 0.01, 1.49, 0.14, 0.94, 2.18,
   0.05, 0.34, 1.26, 0.29, 2.61]

def DEFAULT_RETENTION : ℝ := 0.9

def RATING_AGAIN : ℤ := 1
def RATING_HARD : ℤ := 2
def RATING_GOOD : ℤ := 3
def RATING_EASY : ℤ := 4

/-- `CardState` dataclass: the SRS state of a single card. The dataclass
default for `last_review` (construction-time `now`) is the argument of
`initial_state` below. -/
structure CardState where
  stability : ℝ := 0
  difficulty : ℝ := 0
  elapsed_days : ℝ := 0
  scheduled_days : ℝ := 0
  reps : ℤ := 0
  lapses : ℤ := 0
  last_review : ℝ := 0

/-- `CardState.is_new`: true iff the card has never been reviewed. -/
def CardState.is_new (c : CardState) : Prop := c.reps = 0 ∧ c.lapses = 0

instance (c : CardState) : Decidable c.is_new :=
  inferInstanceAs (Decidable (_ ∧ _))

/-- `FSRSScheduler` configuration: the weight list and the retention target. -/
structure FSRSScheduler where
  w : List ℝ
  desired_retention : ℝ

/-- `FSRSScheduler.__init__`: defaults the weights, validates their count. -/
def mkFSRSScheduler (weights : Option (List ℝ)) (desired_retention : ℝ) :
    Except FSRSError FSRSScheduler :=
  let w := weights.getD DEFAULT_WEIGHTS
  if w.length ≠ 17 then .error .configuration
  else .ok ⟨w, desired_retention⟩

/-- The scheduler built by `FSRSScheduler()` with no arguments. -/
def defaultScheduler : FSRSScheduler := ⟨DEFAULT_WEIGHTS, DEFAULT_RETENTION⟩

/-- `self.w[i]` for the in-range indices used by the formulas. -/
def FSRSScheduler.wi (s : FSRSScheduler) (i : ℕ) : ℝ := s.w.getD i 0

/-- `FSRSScheduler.initial_state`: a fresh card; `now` is the construction
time that the dataclass default factory would record. -/
def initial_state (now : ℝ) : CardState := { last_review := now }

/-- `FSRSScheduler.retrievability`: forgetting-curve recall probability, with
an optional override for the elapsed days. -/
def FSRSScheduler.retrievability (s : FSRSScheduler) (card : CardState)
    (elapsed_days : Option ℝ) (now : ℝ) : Except FSRSError ℝ :=
  if card.stability ≤ 0 then .ok 0
  else
    let e := match elapsed_days with
      | some e => e
      | none => max ((now - card.last_review) / 86400) 0
    bindE (divE e (9 * card.stability)) fun q => rpowE (1 + q) (-1)

/-- `FSRSScheduler._initial_stability`: `self.w[rating - 1]`. -/
def FSRSScheduler.initial_stability (s : FSRSScheduler) (rating : ℤ) : ℝ :=
  s.wi (rating - 1).toNat

/-- `FSRSScheduler._clamp_difficulty`: clamp to `[1, 10]`. -/
def clamp_difficulty (d : ℝ) : ℝ := max 1 (min 10 d)

/-- `FSRSScheduler._initial_difficulty`: `w[4] - (rating - 3) * w[5]`,
clamped. -/
def FSRSScheduler.initial_difficulty (s : FSRSScheduler) (rating : ℤ) : ℝ :=
  clamp_difficulty (s.wi 4 - ((rating : ℝ) - 3) * s.wi 5)

/-- `FSRSScheduler._next_difficulty`: mean-reversion difficulty update,
clamped. -/
def FSRSScheduler.next_difficulty (s : FSRSScheduler) (current_d : ℝ)
    (rating : ℤ) : ℝ :=
  clamp_difficulty
    (s.wi 6 * s.wi 4 + (1 - s.wi 6) * (current_d - s.wi 5 * ((rating : ℝ) - 3)))

/-- `FSRSScheduler._stability_after_success`. -/
def FSRSScheduler.stability_after_success (s : FSRSScheduler)
    (stability difficulty r : ℝ) (rating : ℤ) : Except FSRSError ℝ :=
  bindE (rpowE stability (-(s.wi 10))) fun p =>
    let inner := Real.exp (s.wi 8) * (11 - difficulty) * p *
      (Real.exp (s.wi 11 * (1 - r)) - 1) + 1
    let new_s := stability * inner
    let new_s := if rating = RATING_HARD then min new_s (stability * 1.2)
      else new_s
    let new_s := if rating = RATING_EASY then new_s * s.wi 16 else new_s
    .ok (max new_s 0.01)

/-- `FSRSScheduler._stability_after_failure`. -/
def FSRSScheduler.stability_after_failure (s : FSRSScheduler)
    (stability difficulty r : ℝ) : Except FSRSError ℝ :=
  bindE (rpowE difficulty (-(s.wi 13))) fun pd =>
    bindE (rpowE (stability + 1) (s.wi 14)) fun ps =>
      .ok (max (min (s.wi 12 * pd * (ps - 1) *
        Real.exp (s.wi 15 * (1 - r))) stability) 0.01)

/-- `FSRSScheduler._next_interval`. -/
def FSRSScheduler.next_interval (s : FSRSScheduler) (stability : ℝ) :
    Except FSRSError ℝ :=
  if stability ≤ 0 then .ok 1
  else
    bindE (divE 1 s.desired_retention) fun ir =>
      .ok (max (round2 (9 * stability * (ir - 1))) 1)

/-- `FSRSScheduler._review_new`: first-ever review of a card. The `card`
argument is taken, as in the source, but never read. -/
def FSRSScheduler.review_new (s : FSRSScheduler) (card : CardState)
    (rating : ℤ) (now : ℝ) : Except FSRSError CardState :=
  let stability := s.initial_stability rating
  let difficulty := s.initial_difficulty rating
  bindE (s.next_interval stability) fun interval =>
    .ok { stability := stability, difficulty := difficulty,
          elapsed_days := 0, scheduled_days := interval,
          reps := if rating = RATING_AGAIN then 0 else 1,
          lapses := if rating = RATING_AGAIN then 1 else 0,
          last_review := now }

/-- `FSRSScheduler._review_existing`: review of a previously seen card. -/
def FSRSScheduler.review_existing (s : FSRSScheduler) (card : CardState)
    (rating : ℤ) (now : ℝ) : Except FSRSError CardState :=
  let elapsed_days := max ((now - card.last_review) / 86400) 0
  bindE (s.retrievability card (some elapsed_days) now) fun r =>
    let new_difficulty := s.next_difficulty card.difficulty rating
    bindE (if rating = RATING_AGAIN then
        s.stability_after_failure card.stability new_difficulty r
      else
        s.stability_after_success card.stability new_difficulty r rating)
      fun new_stability =>
      bindE (s.next_interval new_stability) fun interval0 =>
        let interval :=
          if rating = RATING_HARD then max (interval0 * 0.8) 1
          else if rating = RATING_EASY then
            interval0 * (1 + (s.wi 16 - 1) * 0.5)
          else interval0
        .ok { stability := new_stability, difficulty := new_difficulty,
              elapsed_days := elapsed_days,
              scheduled_days := max (round2 interval) 1,
              reps := if rating = RATING_AGAIN then card.reps
                else card.reps + 1,
              lapses := if rating = RATING_AGAIN then card.lapses + 1
                else card.lapses,
              last_review := now }

/-- `FSRSScheduler.review`: validate the rating, then dispatch on
`card.is_new`. -/
def FSRSScheduler.review (s : FSRSScheduler) (card : CardState) (rating : ℤ)
    (now : ℝ) : Except FSRSError CardState :=
  if rating < RATING_AGAIN ∨ RATING_EASY < rating then .error .invalidRating
  else if card.is_new then s.review_new card rating now
  else s.review_existing card rating now

/-- A sequence of reviews: each step is a rating paired with the clock value
at that review; returns the successive card states. -/
def runReviews (s : FSRSScheduler) : CardState → List (ℤ × ℝ) →
    Except FSRSError (List CardState)
  | _, [] => .ok []
  | c, step :: rest =>
    bindE (s.review c step.1 step.2) fun c1 =>
      bindE (runReviews s c1 rest) fun cs => .ok (c1 :: cs)

/-! ### The value computed by each operation on its non-raising domain -/

/-- Value of `_next_interval` when `desired_retention` is nonzero. -/
def nextIntervalVal (s : FSRSScheduler) (stability : ℝ) : ℝ :=
  if stability ≤ 0 then 1
  else max (round2 (9 * stability * (1 / s.desired_retention - 1))) 1

/-- Value of `retrievability` for positive stability and elapsed days `e`. -/
def retrVal (stability e : ℝ) : ℝ := (1 + e / (9 * stability)) ^ (-1 : ℝ)

/-- Value of `_stability_after_success` for nonzero prior stability. -/
def successVal (s : FSRSScheduler) (stability difficulty r : ℝ)
    (rating : ℤ) : ℝ :=
  let inner := Real.exp (s.wi 8) * (11 - difficulty) * stability ^ (-(s.wi 10)) *
    (Real.exp (s.wi 11 * (1 - r)) - 1) + 1
  let new_s := stability * inner
  let new_s := if rating = RATING_HARD then min new_s (stability * 1.2)
    else new_s
  let new_s := if rating = RATING_EASY then new_s * s.wi 16 else new_s
  max new_s 0.01

/-- Value of `_stability_after_failure` on its non-raising domain. -/
def failureVal (s : FSRSScheduler) (stability difficulty r : ℝ) : ℝ :=
  max (min (s.wi 12 * difficulty ^ (-(s.wi 13)) *
    ((stability + 1) ^ (s.wi 14) - 1) *
    Real.exp (s.wi 15 * (1 - r))) stability) 0.01

/-- Value of `_review_new`. -/
def reviewNewVal (s : FSRSScheduler) (rating : ℤ) (now : ℝ) : CardState :=
  { stability := s.initial_stability rating,
    difficulty := s.initial_difficulty rating,
    elapsed_days := 0,
    scheduled_days := nextIntervalVal s (s.initial_stability rating),
    reps := if rating = RATING_AGAIN then 0 else 1,
    lapses := if rating = RATING_AGAIN then 1 else 0,
    last_review := now }

/-- Value of `_review_existing` for a card of positive stability. -/
def reviewExistingVal (s : FSRSScheduler) (card : CardState) (rating : ℤ)
    (now : ℝ) : CardState :=
  let elapsed_days := max ((now - card.last_review) / 86400) 0
  let r := retrVal card.stability elapsed_days
  let new_difficulty := s.next_difficulty card.difficulty rating
  let new_stability :=
    if rating = RATING_AGAIN then
      failureVal s card.stability new_difficulty r
    else successVal s card.stability new_difficulty r rating
  let interval0 := nextIntervalVal s new_stability
  let interval :=
    if rating = RATING_HARD then max (interval0 * 0.8) 1
    else if rating = RATING_EASY then interval0 * (1 + (s.wi 16 - 1) * 0.5)
    else interval0
  { stability := new_stability, difficulty := new_difficulty,
    elapsed_days := elapsed_days,
    scheduled_days := max (round2 interval) 1,
    reps := if rating = RATING_AGAIN then card.reps else card.reps + 1,
    lapses := if rating = RATING_AGAIN then card.lapses + 1 else card.lapses,
    last_review := now }

/-- States reachable by at least one review: difficulty in `[1, 10]`, an
interval of at least one day, positive stability, nonnegative counters, and
not new. -/
def InvT (c : CardState) : Prop :=
  1 ≤ c.difficulty ∧ c.difficulty ≤ 10 ∧ 1 ≤ c.scheduled_days ∧
  0 < c.stability ∧ 0 ≤ c.reps ∧ 0 ≤ c.lapses ∧ ¬c.is_new

/-- Invariant along a run of Good reviews: positive stability, bounded
difficulty, the interval is exactly the one computed from the stability, and
at least one successful rep (hence not new). -/
def InvG (c : CardState) : Prop :=
  0 < c.stability ∧ c.difficulty ≤ 10 ∧
  c.scheduled_days = nextIntervalVal defaultScheduler c.stability ∧
  1 ≤ c.reps

end

noncomputable section

/-! ### Basic facts about the checked operations -/

theorem bindE_ok {α β : Type} (a : α) (f : α → Except FSRSError β) :
    bindE (.ok a) f = f a := rfl

theorem bindE_error {α β : Type} {x : Except FSRSError α}
    {f : α → Except FSRSError β} {e : FSRSError}
    (h : bindE x f = .error e) :
    x = .error e ∨ ∃ a, x = .ok a ∧ f a = .error e := by
  cases x with
  | error er =>
    left
    have her : er = e := by simpa [bindE] using h
    rw [her]
  | ok a =>
    right
    exact ⟨a, rfl, by simpa [bindE] using h⟩

theorem divE_ok {y : ℝ} (x : ℝ) (h : y ≠ 0) : divE x y = .ok (x / y) := by
  simp [divE, h]

theorem rpowE_ok {b e : ℝ} (h : ¬(b = 0 ∧ e < 0)) : rpowE b e = .ok (b ^ e) := by
  simp only [rpowE, if_neg h]

theorem rpowE_ok_of_ne {b : ℝ} (e : ℝ) (h : b ≠ 0) : rpowE b e = .ok (b ^ e) :=
  rpowE_ok (fun hc => h hc.1)

theorem divE_error {x y : ℝ} {e : FSRSError} (h : divE x y = .error e) :
    e = .domainError := by
  unfold divE at h
  split at h <;> simp_all

theorem rpowE_error {b c : ℝ} {e : FSRSError} (h : rpowE b c = .error e) :
    e = .domainError := by
  unfold rpowE at h
  split at h <;> simp_all

/-! ### round2 and clamping -/

theorem round2_mono {x y : ℝ} (h : x ≤ y) : round2 x ≤ round2 y := by
  unfold round2
  have h1 : round (100 * x) ≤ round (100 * y) := by
    rw [round_eq, round_eq]
    exact Int.floor_mono (by linarith)
  have h2 : ((round (100 * x) : ℤ) : ℝ) ≤ ((round (100 * y) : ℤ) : ℝ) := by
    exact_mod_cast h1
  linarith

theorem round2_intCast_div (n : ℤ) : round2 ((n : ℝ) / 100) = (n : ℝ) / 100 := by
  unfold round2
  rw [show (100 : ℝ) * ((n : ℝ) / 100) = (n : ℝ) by ring, round_intCast]

theorem round2_max_one (z : ℝ) : round2 (max (round2 z) 1) = max (round2 z) 1 := by
  have h1 : max (round2 z) 1 = ((max (round (100 * z)) 100 : ℤ) : ℝ) / 100 := by
    unfold round2
    push_cast
    rw [← max_div_div_right (by norm_num : (0:ℝ) ≤ 100)]
    norm_num
  rw [h1, round2_intCast_div]

theorem one_le_clamp (d : ℝ) : 1 ≤ clamp_difficulty d := le_max_left _ _

theorem clamp_le_ten (d : ℝ) : clamp_difficulty d ≤ 10 :=
  max_le (by norm_num) (min_le_left _ _)

theorem clamp_pos (d : ℝ) : 0 < clamp_difficulty d :=
  lt_of_lt_of_le one_pos (one_le_clamp d)

end

noncomputable section

/-! ### Equations relating the checked operations to their values -/

theorem next_interval_eq {s : FSRSScheduler} (x : ℝ)
    (hdr : s.desired_retention ≠ 0) :
    s.next_interval x = .ok (nextIntervalVal s x) := by
  unfold FSRSScheduler.next_interval nextIntervalVal
  split
  · rfl
  · rw [divE_ok 1 hdr, bindE_ok]

theorem retrievability_some_eq {s : FSRSScheduler} {card : CardState}
    {e : ℝ} (now : ℝ) (hS : 0 < card.stability) (he : 0 ≤ e) :
    s.retrievability card (some e) now = .ok (retrVal card.stability e) := by
  have h9 : (9 : ℝ) * card.stability ≠ 0 := by positivity
  have hb : (1 : ℝ) + e / (9 * card.stability) ≠ 0 := by positivity
  simp [FSRSScheduler.retrievability, retrVal, not_le.mpr hS, divE, rpowE,
    bindE_ok, h9, hb]

theorem retrievability_none_eq {s : FSRSScheduler} {card : CardState}
    (now : ℝ) (hS : 0 < card.stability) :
    s.retrievability card none now =
      .ok (retrVal card.stability (max ((now - card.last_review) / 86400) 0)) := by
  have h9 : (9 : ℝ) * card.stability ≠ 0 := by positivity
  have hb : (1 : ℝ) + max ((now - card.last_review) / 86400) 0 /
      (9 * card.stability) ≠ 0 := by positivity
  simp [FSRSScheduler.retrievability, retrVal, not_le.mpr hS, divE, rpowE,
    bindE_ok, h9, hb]

theorem retrievability_nonpos_eq {s : FSRSScheduler} {card : CardState}
    (elapsed_days : Option ℝ) (now : ℝ) (hS : card.stability ≤ 0) :
    s.retrievability card elapsed_days now = .ok 0 := by
  unfold FSRSScheduler.retrievability
  rw [if_pos hS]

theorem stability_after_success_eq {s : FSRSScheduler}
    {stability : ℝ} (difficulty r : ℝ) (rating : ℤ) (hS : stability ≠ 0) :
    s.stability_after_success stability difficulty r rating =
      .ok (successVal s stability difficulty r rating) := by
  unfold FSRSScheduler.stability_after_success successVal
  rw [rpowE_ok_of_ne _ hS, bindE_ok]

theorem stability_after_failure_eq {s : FSRSScheduler}
    {stability difficulty : ℝ} (r : ℝ) (hD : difficulty ≠ 0)
    (hS1 : stability + 1 ≠ 0) :
    s.stability_after_failure stability difficulty r =
      .ok (failureVal s stability difficulty r) := by
  unfold FSRSScheduler.stability_after_failure failureVal
  rw [rpowE_ok_of_ne _ hD, rpowE_ok_of_ne _ hS1]
  rw [bindE_ok, bindE_ok]

theorem review_new_eq {s : FSRSScheduler} (card : CardState) (rating : ℤ)
    (now : ℝ) (hdr : s.desired_retention ≠ 0) :
    s.review_new card rating now = .ok (reviewNewVal s rating now) := by
  simp only [FSRSScheduler.review_new, reviewNewVal, next_interval_eq _ hdr,
    bindE_ok]

theorem review_existing_eq {s : FSRSScheduler} {card : CardState}
    (rating : ℤ) (now : ℝ) (hdr : s.desired_retention ≠ 0)
    (hS : 0 < card.stability) :
    s.review_existing card rating now =
      .ok (reviewExistingVal s card rating now) := by
  have hD : s.next_difficulty card.difficulty rating ≠ 0 :=
    ne_of_gt (clamp_pos _)
  have hS1 : card.stability + 1 ≠ 0 := by positivity
  by_cases hr : rating = RATING_AGAIN
  · simp only [FSRSScheduler.review_existing, reviewExistingVal,
      retrievability_some_eq now hS (le_max_right _ _), if_pos hr,
      stability_after_failure_eq _ hD hS1, next_interval_eq _ hdr, bindE_ok]
  · simp only [FSRSScheduler.review_existing, reviewExistingVal,
      retrievability_some_eq now hS (le_max_right _ _), if_neg hr,
      stability_after_success_eq _ _ rating (ne_of_gt hS),
      next_interval_eq _ hdr, bindE_ok]

end

noncomputable section

/-! ### Which error can each operation raise? -/

theorem retrievability_error {s : FSRSScheduler} {card : CardState}
    {ed : Option ℝ} {now : ℝ} {e : FSRSError}
    (h : s.retrievability card ed now = .error e) : e = .domainError := by
  unfold FSRSScheduler.retrievability at h
  split at h
  · simp at h
  · rcases bindE_error h with hd | ⟨q, _, hq⟩
    · exact divE_error hd
    · exact rpowE_error hq

theorem next_interval_error {s : FSRSScheduler} {x : ℝ} {e : FSRSError}
    (h : s.next_interval x = .error e) : e = .domainError := by
  unfold FSRSScheduler.next_interval at h
  split at h
  · simp at h
  · rcases bindE_error h with hd | ⟨ir, _, hok⟩
    · exact divE_error hd
    · simp at hok

theorem stability_after_success_error {s : FSRSScheduler}
    {stability difficulty r : ℝ} {rating : ℤ} {e : FSRSError}
    (h : s.stability_after_success stability difficulty r rating = .error e) :
    e = .domainError := by
  unfold FSRSScheduler.stability_after_success at h
  rcases bindE_error h with hp | ⟨p, _, hok⟩
  · exact rpowE_error hp
  · simp at hok

theorem stability_after_failure_error {s : FSRSScheduler}
    {stability difficulty r : ℝ} {e : FSRSError}
    (h : s.stability_after_failure stability difficulty r = .error e) :
    e = .domainError := by
  unfold FSRSScheduler.stability_after_failure at h
  rcases bindE_error h with h1 | ⟨pd, _, h2⟩
  · exact rpowE_error h1
  · rcases bindE_error h2 with h3 | ⟨ps, _, h4⟩
    · exact rpowE_error h3
    · simp at h4

theorem review_new_error {s : FSRSScheduler} {card : CardState} {rating : ℤ}
    {now : ℝ} {e : FSRSError}
    (h : s.review_new card rating now = .error e) : e = .domainError := by
  unfold FSRSScheduler.review_new at h
  rcases bindE_error h with h1 | ⟨iv, _, h2⟩
  · exact next_interval_error h1
  · simp at h2

theorem review_existing_error {s : FSRSScheduler} {card : CardState}
    {rating : ℤ} {now : ℝ} {e : FSRSError}
    (h : s.review_existing card rating now = .error e) : e = .domainError := by
  unfold FSRSScheduler.review_existing at h
  rcases bindE_error h with h1 | ⟨r, _, h2⟩
  · exact retrievability_error h1
  · rcases bindE_error h2 with h3 | ⟨ns, _, h4⟩
    · split at h3
      · exact stability_after_failure_error h3
      · exact stability_after_success_error h3
    · rcases bindE_error h4 with h5 | ⟨i0, _, h6⟩
      · exact next_interval_error h5
      · simp at h6

/-- A rating inside the valid range never produces the rating error. -/
theorem review_error_of_valid {s : FSRSScheduler} {card : CardState}
    {rating : ℤ} {now : ℝ} {e : FSRSError}
    (hv : ¬(rating < RATING_AGAIN ∨ RATING_EASY < rating))
    (h : s.review card rating now = .error e) : e = .domainError := by
  unfold FSRSScheduler.review at h
  rw [if_neg hv] at h
  split at h
  · exact review_new_error h
  · exact review_existing_error h

/-! ### Bounds for the values -/

theorem one_le_nextIntervalVal (s : FSRSScheduler) (x : ℝ) :
    1 ≤ nextIntervalVal s x := by
  unfold nextIntervalVal
  split
  · exact le_refl 1
  · exact le_max_right _ _

theorem nextIntervalVal_mono {s : FSRSScheduler} {x y : ℝ}
    (hdr0 : 0 < s.desired_retention) (hdr1 : s.desired_retention ≤ 1)
    (hxy : x ≤ y) : nextIntervalVal s x ≤ nextIntervalVal s y := by
  unfold nextIntervalVal
  have hc : 0 ≤ 1 / s.desired_retention - 1 := by
    have : 1 ≤ 1 / s.desired_retention := by
      rw [le_div_iff₀ hdr0]
      linarith
    linarith
  split
  · split
    · exact le_refl 1
    · exact le_max_right _ _
  · rename_i hx
    rw [if_neg (by intro hy; exact hx (hxy.trans hy))]
    refine max_le_max (round2_mono ?_) (le_refl 1)
    have h9 : 9 * x ≤ 9 * y := by linarith
    exact mul_le_mul_of_nonneg_right h9 hc

theorem retrVal_nonneg {S e : ℝ} (hS : 0 < S) (he : 0 ≤ e) :
    0 ≤ retrVal S e :=
  Real.rpow_nonneg (by positivity) _

theorem retrVal_le_one {S e : ℝ} (hS : 0 < S) (he : 0 ≤ e) :
    retrVal S e ≤ 1 := by
  unfold retrVal
  rw [Real.rpow_neg_one]
  exact inv_le_one_of_one_le₀ (le_add_of_nonneg_right (by positivity))

theorem retrVal_zero {S : ℝ} : retrVal S 0 = 1 := by
  simp [retrVal]

theorem successVal_pos (s : FSRSScheduler) (S D r : ℝ) (g : ℤ) :
    0 < successVal s S D r g :=
  lt_of_lt_of_le (by norm_num) (le_max_right _ _)

theorem failureVal_pos (s : FSRSScheduler) (S D r : ℝ) :
    0 < failureVal s S D r :=
  lt_of_lt_of_le (by norm_num) (le_max_right _ _)

theorem failureVal_le {S : ℝ} (s : FSRSScheduler) (D r : ℝ)
    (hS : 0.01 ≤ S) : failureVal s S D r ≤ S :=
  max_le (min_le_right _ _) hS

/-- Under a Good rating with a difficulty at most 10, a retrievability at
most 1 and a nonnegative `w[11]`, the post-success stability does not
shrink. -/
theorem le_successVal_good {s : FSRSScheduler} {S D r : ℝ}
    (hS : 0 < S) (hD : D ≤ 10) (hr : r ≤ 1) (hw : 0 ≤ s.wi 11) :
    S ≤ successVal s S D r RATING_GOOD := by
  simp only [successVal, RATING_GOOD, RATING_HARD, RATING_EASY,
    show ((3:ℤ) = 2) = False by simp, show ((3:ℤ) = 4) = False by simp,
    if_false]
  have h1 : (0:ℝ) < Real.exp (s.wi 8) := Real.exp_pos _
  have h2 : (0:ℝ) ≤ 11 - D := by linarith
  have h3 : 0 < S ^ (-(s.wi 10)) := Real.rpow_pos_of_pos hS _
  have h4 : (0:ℝ) ≤ Real.exp (s.wi 11 * (1 - r)) - 1 := by
    have := Real.one_le_exp (by nlinarith : (0:ℝ) ≤ s.wi 11 * (1 - r))
    linarith
  have hprod : (0:ℝ) ≤ Real.exp (s.wi 8) * (11 - D) * S ^ (-(s.wi 10)) *
      (Real.exp (s.wi 11 * (1 - r)) - 1) :=
    mul_nonneg (mul_nonneg (mul_nonneg h1.le h2) h3.le) h4
  refine le_trans ?_ (le_max_left _ _)
  nlinarith

end

noncomputable section

/-! ### Facts about the default configuration -/

theorem default_dr_ne : defaultScheduler.desired_retention ≠ 0 := by
  norm_num [defaultScheduler, DEFAULT_RETENTION]

theorem default_dr_pos : 0 < defaultScheduler.desired_retention := by
  norm_num [defaultScheduler, DEFAULT_RETENTION]

theorem default_dr_le_one : defaultScheduler.desired_retention ≤ 1 := by
  norm_num [defaultScheduler, DEFAULT_RETENTION]

theorem default_wi11_nonneg : 0 ≤ defaultScheduler.wi 11 := by
  norm_num [FSRSScheduler.wi, defaultScheduler, DEFAULT_WEIGHTS]

/-! ### The trajectory invariant behind the bounds claim -/

theorem reviewNewVal_invT {g : ℤ} (hg1 : 1 ≤ g) (hg4 : g ≤ 4) (now : ℝ) :
    InvT (reviewNewVal defaultScheduler g now) := by
  have hst : 0 < defaultScheduler.initial_stability g := by
    interval_cases g <;>
      · simp only [FSRSScheduler.initial_stability, FSRSScheduler.wi,
          defaultScheduler, DEFAULT_WEIGHTS, List.getD,
          show ((0:ℤ) - 1).toNat = 0 from rfl,
          show ((1:ℤ) - 1).toNat = 0 from rfl,
          show ((2:ℤ) - 1).toNat = 1 from rfl,
          show ((3:ℤ) - 1).toNat = 2 from rfl,
          show ((4:ℤ) - 1).toNat = 3 from rfl]
        norm_num
  unfold InvT reviewNewVal FSRSScheduler.initial_difficulty
  dsimp only
  refine ⟨one_le_clamp _, clamp_le_ten _, one_le_nextIntervalVal _ _, hst,
    ?_, ?_, ?_⟩
  · split <;> norm_num
  · split <;> norm_num
  · by_cases hg : g = RATING_AGAIN <;> simp [CardState.is_new, hg]

theorem reviewExistingVal_invT (s : FSRSScheduler) (card : CardState)
    (g : ℤ) (now : ℝ) (hreps : 0 ≤ card.reps) (hlap : 0 ≤ card.lapses) :
    InvT (reviewExistingVal s card g now) := by
  unfold InvT reviewExistingVal
  dsimp only
  refine ⟨one_le_clamp _, clamp_le_ten _, le_max_right _ _, ?_, ?_, ?_, ?_⟩
  · split
    · exact failureVal_pos _ _ _ _
    · exact successVal_pos _ _ _ _ _
  · split <;> omega
  · split <;> omega
  · by_cases hg : g = RATING_AGAIN <;> simp [CardState.is_new, hg] <;> omega

theorem review_step_invT {c : CardState} {g : ℤ} (hg1 : 1 ≤ g) (hg4 : g ≤ 4)
    (h : c.is_new ∨ InvT c) (now : ℝ) :
    ∃ c1, defaultScheduler.review c g now = .ok c1 ∧ InvT c1 := by
  have hv : ¬(g < RATING_AGAIN ∨ RATING_EASY < g) := by
    simp only [RATING_AGAIN, RATING_EASY]
    omega
  rcases h with hnew | hinv
  · refine ⟨_, ?_, reviewNewVal_invT hg1 hg4 now⟩
    unfold FSRSScheduler.review
    rw [if_neg hv, if_pos hnew]
    exact review_new_eq c g now default_dr_ne
  · refine ⟨reviewExistingVal defaultScheduler c g now, ?_,
      reviewExistingVal_invT defaultScheduler c g now hinv.2.2.2.2.1
        hinv.2.2.2.2.2.1⟩
    unfold FSRSScheduler.review
    rw [if_neg hv, if_neg hinv.2.2.2.2.2.2]
    exact review_existing_eq g now default_dr_ne hinv.2.2.2.1

theorem runReviews_invT {steps : List (ℤ × ℝ)} :
    ∀ c : CardState, (∀ p ∈ steps, 1 ≤ p.1 ∧ p.1 ≤ 4) →
    (c.is_new ∨ InvT c) →
    ∃ states, runReviews defaultScheduler c steps = .ok states ∧
      ∀ x ∈ states, InvT x := by
  induction steps with
  | nil =>
    intro c _ _
    exact ⟨[], rfl, by simp⟩
  | cons p rest ih =>
    intro c hr hc
    obtain ⟨c1, hc1, hinv1⟩ :=
      review_step_invT (hr p (by simp)).1 (hr p (by simp)).2 hc p.2
    obtain ⟨states, hst, hall⟩ :=
      ih c1 (fun q hq => hr q (by simp [hq])) (Or.inr hinv1)
    refine ⟨c1 :: states, ?_, ?_⟩
    · simp only [runReviews]
      rw [hc1, bindE_ok, hst, bindE_ok]
    · intro x hx
      rcases List.mem_cons.mp hx with rfl | hx2
      · exact hinv1
      · exact hall x hx2

end

noncomputable section

/-! ### Machinery for the monotone-Good-sequence claim -/

theorem round2_nextIntervalVal (s : FSRSScheduler) (x : ℝ) :
    max (round2 (nextIntervalVal s x)) 1 = nextIntervalVal s x := by
  unfold nextIntervalVal
  split
  · norm_num [round2]
  · rw [round2_max_one, max_assoc, max_self]

theorem reviewExistingVal_good_fields (s : FSRSScheduler) (card : CardState)
    (t : ℝ) :
    (reviewExistingVal s card RATING_GOOD t).stability =
      successVal s card.stability
        (s.next_difficulty card.difficulty RATING_GOOD)
        (retrVal card.stability (max ((t - card.last_review) / 86400) 0))
        RATING_GOOD ∧
    (reviewExistingVal s card RATING_GOOD t).scheduled_days =
      max (round2 (nextIntervalVal s (successVal s card.stability
        (s.next_difficulty card.difficulty RATING_GOOD)
        (retrVal card.stability (max ((t - card.last_review) / 86400) 0))
        RATING_GOOD))) 1 ∧
    (reviewExistingVal s card RATING_GOOD t).difficulty =
      s.next_difficulty card.difficulty RATING_GOOD ∧
    (reviewExistingVal s card RATING_GOOD t).reps = card.reps + 1 := by
  refine ⟨?_, ?_, ?_, ?_⟩ <;>
    simp [reviewExistingVal, RATING_GOOD, RATING_AGAIN, RATING_HARD,
      RATING_EASY]

theorem good_step {c : CardState} (h : InvG c) (t : ℝ) :
    defaultScheduler.review c RATING_GOOD t =
      .ok (reviewExistingVal defaultScheduler c RATING_GOOD t) ∧
    InvG (reviewExistingVal defaultScheduler c RATING_GOOD t) ∧
    c.scheduled_days ≤
      (reviewExistingVal defaultScheduler c RATING_GOOD t).scheduled_days := by
  obtain ⟨hS, hD, hsched, hreps⟩ := h
  have hnn : ¬c.is_new := fun hn => by
    have := hn.1
    omega
  obtain ⟨hst, hsch, hdiff, hrep⟩ :=
    reviewExistingVal_good_fields defaultScheduler c t
  have he0 : (0:ℝ) ≤ max ((t - c.last_review) / 86400) 0 := le_max_right _ _
  have hr1 : retrVal c.stability (max ((t - c.last_review) / 86400) 0) ≤ 1 :=
    retrVal_le_one hS he0
  have hS' : c.stability ≤
      successVal defaultScheduler c.stability
        (defaultScheduler.next_difficulty c.difficulty RATING_GOOD)
        (retrVal c.stability (max ((t - c.last_review) / 86400) 0))
        RATING_GOOD :=
    le_successVal_good hS (clamp_le_ten _) hr1 default_wi11_nonneg
  refine ⟨?_, ⟨?_, ?_, ?_, ?_⟩, ?_⟩
  · unfold FSRSScheduler.review
    rw [if_neg (by decide), if_neg hnn]
    exact review_existing_eq _ _ default_dr_ne hS
  · rw [hst]
    exact lt_of_lt_of_le hS hS'
  · rw [hdiff]
    exact clamp_le_ten _
  · rw [hsch, hst, round2_nextIntervalVal]
  · rw [hrep]
    omega
  · rw [hsch, round2_nextIntervalVal, hsched]
    exact nextIntervalVal_mono default_dr_pos default_dr_le_one hS'

theorem runReviews_good_chain (ts : List ℝ) :
    ∀ c : CardState, InvG c →
    ∃ states,
      runReviews defaultScheduler c (ts.map fun t => (RATING_GOOD, t)) =
        .ok states ∧
      List.Chain (fun a b => a.scheduled_days ≤ b.scheduled_days) c states := by
  induction ts with
  | nil =>
    intro c _
    exact ⟨[], rfl, List.Chain.nil⟩
  | cons t rest ih =>
    intro c hc
    obtain ⟨hok, hinv, hle⟩ := good_step hc t
    obtain ⟨states, hst, hchain⟩ := ih _ hinv
    refine ⟨reviewExistingVal defaultScheduler c RATING_GOOD t :: states,
      ?_, ?_⟩
    · simp only [List.map_cons, runReviews]
      rw [hok, bindE_ok, hst, bindE_ok]
    · exact List.Chain.cons hle hchain

theorem reviewNewVal_good_invG (t : ℝ) :
    InvG (reviewNewVal defaultScheduler RATING_GOOD t) := by
  refine ⟨?_, ?_, ?_, ?_⟩
  · show 0 < defaultScheduler.initial_stability RATING_GOOD
    simp only [FSRSScheduler.initial_stability, FSRSScheduler.wi,
      defaultScheduler, DEFAULT_WEIGHTS, List.getD, RATING_GOOD,
      show ((3:ℤ) - 1).toNat = 2 from rfl]
    norm_num
  · exact clamp_le_ten _
  · rfl
  · show 1 ≤ (if RATING_GOOD = RATING_AGAIN then (0:ℤ) else 1)
    norm_num [RATING_GOOD, RATING_AGAIN]

end

noncomputable section

/-- C1: starting from the initial all-zero card state, for every sequence of
ratings in {1,2,3,4} of any length (reviewed at arbitrary clock readings),
every card state returned by the successive review calls satisfies
`1 ≤ difficulty ≤ 10`, `scheduled_days ≥ 1` and `stability > 0`. -/
theorem C1_bounds_after_every_step (steps : List (ℤ × ℝ)) (t0 : ℝ)
    (hr : ∀ p ∈ steps, 1 ≤ p.1 ∧ p.1 ≤ 4) :
    ∃ states,
      runReviews defaultScheduler (initial_state t0) steps = .ok states ∧
      ∀ c ∈ states, 1 ≤ c.difficulty ∧ c.difficulty ≤ 10 ∧
        1 ≤ c.scheduled_days ∧ 0 < c.stability := by
  obtain ⟨states, h1, h2⟩ :=
    runReviews_invT (initial_state t0) hr (Or.inl ⟨rfl, rfl⟩)
  exact ⟨states, h1, fun c hc =>
    ⟨(h2 c hc).1, (h2 c hc).2.1, (h2 c hc).2.2.1, (h2 c hc).2.2.2.1⟩⟩

/-- Witness for C1 at the concrete rating sequence [Again, Good]. -/
theorem C1_bounds_after_every_step_witness :
    (∀ p ∈ [((1:ℤ), (0:ℝ)), ((3:ℤ), (86400:ℝ))], 1 ≤ p.1 ∧ p.1 ≤ 4) ∧
    ∃ states,
      runReviews defaultScheduler (initial_state 0)
        [((1:ℤ), (0:ℝ)), ((3:ℤ), (86400:ℝ))] = .ok states ∧
      ∀ c ∈ states, 1 ≤ c.difficulty ∧ c.difficulty ≤ 10 ∧
        1 ≤ c.scheduled_days ∧ 0 < c.stability :=
  ⟨by simp, C1_bounds_after_every_step [(1, 0), (3, 86400)] 0 (by simp)⟩

/-- C2: `review` is deterministic — two invocations agree whenever the 17
weights, the desired-retention target, the card, the rating and the injected
clock reading agree; the clock value is the only time input. -/
theorem C2_deterministic (s1 s2 : FSRSScheduler) (card : CardState)
    (rating : ℤ) (now : ℝ) (hw : s1.w = s2.w)
    (hr : s1.desired_retention = s2.desired_retention) :
    s1.review card rating now = s2.review card rating now := by
  cases s1
  cases s2
  cases hw
  cases hr
  rfl

/-- Witness for C2 at the default scheduler, a fresh card and rating Good. -/
theorem C2_deterministic_witness :
    defaultScheduler.w = defaultScheduler.w ∧
    defaultScheduler.desired_retention = defaultScheduler.desired_retention ∧
    defaultScheduler.review (initial_state 0) 3 0 =
      defaultScheduler.review (initial_state 0) 3 0 :=
  ⟨rfl, rfl,
    C2_deterministic defaultScheduler defaultScheduler (initial_state 0) 3 0
      rfl rfl⟩

/-- C3: `review` raises the invalid-rating error exactly for integer ratings
outside {1,2,3,4}, and construction raises the configuration error exactly
for weight vectors whose length is not 17. -/
theorem C3_validation (s : FSRSScheduler) (card : CardState) (g : ℤ)
    (now : ℝ) (ws : List ℝ) (dr : ℝ) :
    ((g < 1 ∨ 4 < g) → s.review card g now = .error .invalidRating) ∧
    (1 ≤ g → g ≤ 4 → s.review card g now ≠ .error .invalidRating) ∧
    (ws.length ≠ 17 → mkFSRSScheduler (some ws) dr = .error .configuration) ∧
    (ws.length = 17 → mkFSRSScheduler (some ws) dr = .ok ⟨ws, dr⟩) := by
  refine ⟨?_, ?_, ?_, ?_⟩
  · intro hg
    unfold FSRSScheduler.review
    rw [if_pos (by simpa [RATING_AGAIN, RATING_EASY] using hg)]
  · intro h1 h4 hcontra
    have hkind := review_error_of_valid
      (by simp only [RATING_AGAIN, RATING_EASY]; omega) hcontra
    simp at hkind
  · intro hlen
    simp [mkFSRSScheduler, hlen]
  · intro hlen
    simp [mkFSRSScheduler, hlen]

/-- Witness for C3: rating 0 is rejected, rating 3 is not; 2 weights are
rejected, the 17 default weights are accepted. -/
theorem C3_validation_witness :
    ((0:ℤ) < 1 ∨ 4 < (0:ℤ)) ∧
    defaultScheduler.review (initial_state 0) 0 0 = .error .invalidRating ∧
    defaultScheduler.review (initial_state 0) 3 0 ≠ .error .invalidRating ∧
    [(0:ℝ), 1].length ≠ 17 ∧
    mkFSRSScheduler (some [(0:ℝ), 1]) 0.9 = .error .configuration ∧
    DEFAULT_WEIGHTS.length = 17 ∧
    mkFSRSScheduler (some DEFAULT_WEIGHTS) 0.9 =
      .ok ⟨DEFAULT_WEIGHTS, 0.9⟩ := by
  refine ⟨by norm_num, ?_, ?_, by norm_num, ?_, ?_, ?_⟩
  · exact (C3_validation defaultScheduler (initial_state 0) 0 0 [0, 1]
      0.9).1 (by norm_num)
  · exact (C3_validation defaultScheduler (initial_state 0) 3 0 [0, 1]
      0.9).2.1 (by norm_num) (by norm_num)
  · exact (C3_validation defaultScheduler (initial_state 0) 0 0 [0, 1]
      0.9).2.2.1 (by norm_num)
  · norm_num [DEFAULT_WEIGHTS]
  · exact (C3_validation defaultScheduler (initial_state 0) 0 0
      DEFAULT_WEIGHTS 0.9).2.2.2 (by norm_num [DEFAULT_WEIGHTS])

end

noncomputable section

/-- C6: the first review of a new card returns stability `w[g-1]`, difficulty
`clamp(w4 - (g-3)*w5, 1, 10)`, zero elapsed days, the interval computed from
the new stability, `reps = 0` iff the rating was Again (else 1), and
`lapses = 1` iff the rating was Again (else 0). -/
theorem C6_first_review (s : FSRSScheduler) (card : CardState) (g : ℤ)
    (now : ℝ) (hdr : s.desired_retention ≠ 0) (hreps : card.reps = 0)
    (hlap : card.lapses = 0) (hg1 : 1 ≤ g) (hg4 : g ≤ 4) :
    s.review card g now = .ok
      { stability := s.wi (g - 1).toNat,
        difficulty := max 1 (min 10 (s.wi 4 - ((g : ℝ) - 3) * s.wi 5)),
        elapsed_days := 0,
        scheduled_days := nextIntervalVal s (s.wi (g - 1).toNat),
        reps := if g = 1 then 0 else 1,
        lapses := if g = 1 then 1 else 0,
        last_review := now } := by
  have hnew : card.is_new := ⟨hreps, hlap⟩
  have hv : ¬(g < RATING_AGAIN ∨ RATING_EASY < g) := by
    simp only [RATING_AGAIN, RATING_EASY]
    omega
  unfold FSRSScheduler.review
  rw [if_neg hv, if_pos hnew, review_new_eq card g now hdr]
  rfl

/-- Witness for C6 at the default scheduler, a fresh card and rating Good. -/
theorem C6_first_review_witness :
    defaultScheduler.desired_retention ≠ 0 ∧ (initial_state 0).reps = 0 ∧
    (initial_state 0).lapses = 0 ∧ (1:ℤ) ≤ 3 ∧ (3:ℤ) ≤ 4 ∧
    defaultScheduler.review (initial_state 0) 3 86400 = .ok
      { stability := defaultScheduler.wi ((3:ℤ) - 1).toNat,
        difficulty := max 1 (min 10 (defaultScheduler.wi 4 -
          (((3:ℤ) : ℝ) - 3) * defaultScheduler.wi 5)),
        elapsed_days := 0,
        scheduled_days :=
          nextIntervalVal defaultScheduler (defaultScheduler.wi ((3:ℤ) - 1).toNat),
        reps := if (3:ℤ) = 1 then 0 else 1,
        lapses := if (3:ℤ) = 1 then 1 else 0,
        last_review := 86400 } :=
  ⟨default_dr_ne, rfl, rfl, by norm_num, by norm_num,
    C6_first_review defaultScheduler (initial_state 0) 3 86400 default_dr_ne
      rfl rfl (by norm_num) (by norm_num)⟩

/-- C7: for positive stability and a nonnegative elapsed-days override,
retrievability is exactly `(1 + elapsed/(9*stability))^(-1)`, a value in
`[0,1]`, equal to 1 at zero elapsed days; for nonpositive stability it is
exactly 0. -/
theorem C7_retrievability (s : FSRSScheduler) (card : CardState)
    (e now : ℝ) :
    (0 < card.stability → 0 ≤ e →
      s.retrievability card (some e) now =
        .ok ((1 + e / (9 * card.stability)) ^ (-1 : ℝ)) ∧
      0 ≤ (1 + e / (9 * card.stability)) ^ (-1 : ℝ) ∧
      (1 + e / (9 * card.stability)) ^ (-1 : ℝ) ≤ 1) ∧
    (0 < card.stability → s.retrievability card (some 0) now = .ok 1) ∧
    (card.stability ≤ 0 → s.retrievability card (some e) now = .ok 0) := by
  refine ⟨fun hS he => ⟨?_, ?_, ?_⟩, fun hS => ?_, fun hS => ?_⟩
  · exact retrievability_some_eq now hS he
  · exact retrVal_nonneg hS he
  · exact retrVal_le_one hS he
  · rw [retrievability_some_eq now hS (le_refl 0), retrVal_zero]
  · exact retrievability_nonpos_eq _ _ hS

/-- Witness for C7 at stability 5 and elapsed-days override 9 (and 0). -/
theorem C7_retrievability_witness :
    (0:ℝ) < 5 ∧ (0:ℝ) ≤ 9 ∧
    defaultScheduler.retrievability { stability := 5 } (some 9) 0 =
      .ok ((1 + 9 / (9 * 5)) ^ (-1 : ℝ)) ∧
    defaultScheduler.retrievability { stability := 5 } (some 0) 0 = .ok 1 ∧
    defaultScheduler.retrievability { stability := 0 } (some 9) 0 = .ok 0 := by
  refine ⟨by norm_num, by norm_num, ?_, ?_, ?_⟩
  · exact ((C7_retrievability defaultScheduler { stability := 5 } 9 0).1
      (by norm_num) (by norm_num)).1
  · exact (C7_retrievability defaultScheduler { stability := 5 } 9 0).2.1
      (by norm_num)
  · exact (C7_retrievability defaultScheduler { stability := 0 } 9 0).2.2
      (by norm_num)

/-- C9: for a new card (`reps = 0` and `lapses = 0`), the review result does
not depend on the card's stability, difficulty, elapsed_days or
scheduled_days fields. -/
theorem C9_new_card_ignores_numeric_fields (s : FSRSScheduler)
    (card : CardState) (g : ℤ) (now a b ed sd : ℝ)
    (hreps : card.reps = 0) (hlap : card.lapses = 0) :
    s.review
      { card with
          stability := a,
          difficulty := b,
          elapsed_days := ed,
          scheduled_days := sd } g now =
      s.review card g now := by
  have h1 : ({ card with
      stability := a,
      difficulty := b,
      elapsed_days := ed,
      scheduled_days := sd } : CardState).is_new := ⟨hreps, hlap⟩
  have h2 : card.is_new := ⟨hreps, hlap⟩
  unfold FSRSScheduler.review
  rw [if_pos h1, if_pos h2]
  rfl

/-- Witness for C9: overriding the four numeric fields of a fresh card does
not change the review result. -/
theorem C9_new_card_ignores_numeric_fields_witness :
    (initial_state 0).reps = 0 ∧ (initial_state 0).lapses = 0 ∧
    defaultScheduler.review
      { initial_state 0 with
          stability := 99,
          difficulty := 7,
          elapsed_days := 5,
          scheduled_days := 11 } 3 0 =
      defaultScheduler.review (initial_state 0) 3 0 :=
  ⟨rfl, rfl,
    C9_new_card_ignores_numeric_fields defaultScheduler (initial_state 0)
      3 0 99 7 5 11 rfl rfl⟩

end

noncomputable section

/-- C8: for a sequence of Good (rating 3) reviews starting from a new card,
each successive `scheduled_days` is at least the previous one, whatever the
clock readings between the reviews. -/
theorem C8_good_reviews_monotone (card : CardState) (ts : List ℝ)
    (hnew : card.is_new) :
    ∃ states,
      runReviews defaultScheduler card (ts.map fun t => ((3:ℤ), t)) =
        .ok states ∧
      states.Chain' (fun c1 c2 => c1.scheduled_days ≤ c2.scheduled_days) := by
  simp only [show ((3:ℤ)) = RATING_GOOD from rfl]
  cases ts with
  | nil => exact ⟨[], rfl, by simp⟩
  | cons t rest =>
    have hok : defaultScheduler.review card RATING_GOOD t =
        .ok (reviewNewVal defaultScheduler RATING_GOOD t) := by
      unfold FSRSScheduler.review
      rw [if_neg (by decide), if_pos hnew]
      exact review_new_eq _ _ _ default_dr_ne
    obtain ⟨states, hst, hchain⟩ :=
      runReviews_good_chain rest _ (reviewNewVal_good_invG t)
    refine ⟨reviewNewVal defaultScheduler RATING_GOOD t :: states, ?_, ?_⟩
    · simp only [List.map_cons, runReviews]
      rw [hok, bindE_ok, hst, bindE_ok]
    · exact hchain

/-- Witness for C8: two Good reviews, one day apart, from a fresh card. -/
theorem C8_good_reviews_monotone_witness :
    (initial_state 0).is_new ∧
    ∃ states,
      runReviews defaultScheduler (initial_state 0)
        ([0, 86400].map fun t => ((3:ℤ), t)) = .ok states ∧
      states.Chain' (fun c1 c2 => c1.scheduled_days ≤ c2.scheduled_days) :=
  ⟨⟨rfl, rfl⟩,
    C8_good_reviews_monotone (initial_state 0) [0, 86400] ⟨rfl, rfl⟩⟩

/-- C4 counterexample: the claim quantifies over any stability >= 0, but a
non-new card with stability exactly 0 reviewed with rating 3 reaches
`0.0 ** (-w10)` inside `_stability_after_success`, which raises
`ZeroDivisionError` in Python. -/
theorem C4_counterexample :
    defaultScheduler.review
      { stability := 0, difficulty := 5, elapsed_days := 0,
        scheduled_days := 0, reps := 1, lapses := 0, last_review := 0 } 3 0 =
      .error .domainError := by
  unfold FSRSScheduler.review
  rw [if_neg (by decide), if_neg (by simp [CardState.is_new])]
  unfold FSRSScheduler.review_existing
  dsimp only
  rw [retrievability_nonpos_eq _ _ (le_refl 0), bindE_ok,
    if_neg (by decide : ¬((3:ℤ) = RATING_AGAIN))]
  unfold FSRSScheduler.stability_after_success
  rw [show rpowE (0:ℝ) (-(defaultScheduler.wi 10)) = .error .domainError by
    unfold rpowE
    rw [if_pos ⟨rfl, by
      norm_num [FSRSScheduler.wi, defaultScheduler, DEFAULT_WEIGHTS,
        List.getD]⟩]]
  rfl

noncomputable section

/-- C4 (amended): totality holds on the domain the floors actually protect:
for any scheduler with a nonzero retention target, `review` succeeds for
every valid rating on every card that is either new or has positive
stability, and `retrievability` succeeds for every nonnegative elapsed-days
override on every card. -/
theorem C4_totality_amended (s : FSRSScheduler) (card : CardState) (g : ℤ)
    (now e : ℝ) (hdr : s.desired_retention ≠ 0) (hg1 : 1 ≤ g) (hg4 : g ≤ 4)
    (hcard : card.is_new ∨ 0 < card.stability) (he : 0 ≤ e) :
    (∃ c, s.review card g now = .ok c) ∧
    (∃ r, s.retrievability card (some e) now = .ok r) := by
  constructor
  · have hv : ¬(g < RATING_AGAIN ∨ RATING_EASY < g) := by
      simp only [RATING_AGAIN, RATING_EASY]
      omega
    by_cases hnew : card.is_new
    · refine ⟨reviewNewVal s g now, ?_⟩
      unfold FSRSScheduler.review
      rw [if_neg hv, if_pos hnew]
      exact review_new_eq card g now hdr
    · rcases hcard with h | hS
      · exact absurd h hnew
      · refine ⟨reviewExistingVal s card g now, ?_⟩
        unfold FSRSScheduler.review
        rw [if_neg hv, if_neg hnew]
        exact review_existing_eq g now hdr hS
  · rcases le_or_lt card.stability 0 with hS | hS
    · exact ⟨0, retrievability_nonpos_eq _ _ hS⟩
    · exact ⟨retrVal card.stability e, retrievability_some_eq now hS he⟩

/-- Witness for the amended C4 at a non-new card of stability 5, rating Good,
elapsed override 9. -/
theorem C4_totality_amended_witness :
    defaultScheduler.desired_retention ≠ 0 ∧ (1:ℤ) ≤ 3 ∧ (3:ℤ) ≤ 4 ∧
    (({ stability := 5, difficulty := 5, elapsed_days := 0,
        scheduled_days := 0, reps := 1, lapses := 0,
        last_review := 0 } : CardState).is_new ∨
      (0:ℝ) < 5) ∧ (0:ℝ) ≤ 9 ∧
    ((∃ c, defaultScheduler.review
        { stability := 5, difficulty := 5, elapsed_days := 0,
          scheduled_days := 0, reps := 1, lapses := 0,
          last_review := 0 } 3 0 = .ok c) ∧
     (∃ r, defaultScheduler.retrievability
        { stability := 5, difficulty := 5, elapsed_days := 0,
          scheduled_days := 0, reps := 1, lapses := 0,
          last_review := 0 } (some 9) 0 = .ok r)) :=
  ⟨default_dr_ne, by norm_num, by norm_num, Or.inr (by norm_num),
    by norm_num,
    C4_totality_amended defaultScheduler _ 3 0 9 default_dr_ne
      (by norm_num) (by norm_num) (Or.inr (by norm_num)) (by norm_num)⟩

/-- C5 counterexample: the claim quantifies over every non-new card, but for
prior stability S = 0 (below the 0.01 floor) a lapse yields new stability
0.01, which strictly exceeds S — so "the new stability never exceeds S"
fails. -/
theorem C5_counterexample :
    Except.map CardState.stability
      (defaultScheduler.review
        { stability := 0, difficulty := 5, elapsed_days := 0,
          scheduled_days := 0, reps := 1, lapses := 0, last_review := 0 }
        1 0) = .ok 0.01 ∧
    ¬((0.01 : ℝ) ≤ 0) := by
  constructor
  · have hD : defaultScheduler.next_difficulty 5 1 ≠ 0 :=
      ne_of_gt (clamp_pos _)
    unfold FSRSScheduler.review
    rw [if_neg (by decide), if_neg (by simp [CardState.is_new])]
    unfold FSRSScheduler.review_existing
    dsimp only
    rw [retrievability_nonpos_eq _ _ (le_refl 0), bindE_ok,
      if_pos (by decide : (1:ℤ) = RATING_AGAIN),
      stability_after_failure_eq _ hD (by norm_num), bindE_ok,
      next_interval_eq _ default_dr_ne, bindE_ok]
    simp only [Except.map]
    rw [Except.ok.injEq]
    unfold failureVal
    norm_num [Real.one_rpow]
  · norm_num

/-- C5 (amended): for every non-new card whose prior stability S is at least
the 0.01 floor, a review with rating 1 yields new stability
`max (min (w12 * D^(-w13) * ((S+1)^w14 - 1) * e^(w15*(1-R))) S) 0.01`, and
in particular the new stability does not exceed S. -/
theorem C5_lapse_amended (s : FSRSScheduler) (card : CardState) (now : ℝ)
    (hdr : s.desired_retention ≠ 0) (hnn : ¬card.is_new)
    (hS : 0.01 ≤ card.stability) :
    ∃ c, s.review card 1 now = .ok c ∧
      c.stability =
        max (min (s.wi 12 *
            (s.next_difficulty card.difficulty 1) ^ (-(s.wi 13)) *
            ((card.stability + 1) ^ (s.wi 14) - 1) *
            Real.exp (s.wi 15 *
              (1 - retrVal card.stability
                (max ((now - card.last_review) / 86400) 0))))
          card.stability) 0.01 ∧
      c.stability ≤ card.stability := by
  have hS0 : 0 < card.stability := lt_of_lt_of_le (by norm_num) hS
  have hstab : (reviewExistingVal s card 1 now).stability =
      failureVal s card.stability (s.next_difficulty card.difficulty 1)
        (retrVal card.stability (max ((now - card.last_review) / 86400) 0)) := by
    simp [reviewExistingVal, RATING_AGAIN]
  refine ⟨reviewExistingVal s card 1 now, ?_, ?_, ?_⟩
  · unfold FSRSScheduler.review
    rw [if_neg (by decide), if_neg hnn]
    exact review_existing_eq 1 now hdr hS0
  · rw [hstab]
    rfl
  · rw [hstab]
    exact failureVal_le s _ _ hS

/-- Witness for the amended C5 at a non-new card of stability 1. -/
theorem C5_lapse_amended_witness :
    defaultScheduler.desired_retention ≠ 0 ∧
    ¬({ stability := 1, difficulty := 5, elapsed_days := 0,
        scheduled_days := 0, reps := 1, lapses := 0,
        last_review := 0 } : CardState).is_new ∧
    (0.01 : ℝ) ≤ 1 ∧
    ∃ c, defaultScheduler.review
        { stability := 1, difficulty := 5, elapsed_days := 0,
          scheduled_days := 0, reps := 1, lapses := 0, last_review := 0 }
        1 0 = .ok c ∧
      c.stability =
        max (min (defaultScheduler.wi 12 *
            (defaultScheduler.next_difficulty 5 1) ^
              (-(defaultScheduler.wi 13)) *
            (((1:ℝ) + 1) ^ (defaultScheduler.wi 14) - 1) *
            Real.exp (defaultScheduler.wi 15 *
              (1 - retrVal 1 (max ((0 - (0:ℝ)) / 86400) 0)))) 1) 0.01 ∧
      c.stability ≤ 1 :=
  ⟨default_dr_ne, by simp [CardState.is_new], by norm_num,
    C5_lapse_amended defaultScheduler
      { stability := 1, difficulty := 5, elapsed_days := 0,
        scheduled_days := 0, reps := 1, lapses := 0, last_review := 0 }
      0 default_dr_ne (by simp [CardState.is_new]) (by norm_num)⟩

/-- C10 counterexample: the claim quantifies over every non-new card, but for
a stability-0 non-new card with `last_review` in the future, retrievability
returns 0 (the nonpositive-stability guard), not 1. -/
theorem C10_counterexample :
    defaultScheduler.retrievability
      { stability := 0, difficulty := 5, elapsed_days := 0,
        scheduled_days := 0, reps := 1, lapses := 0, last_review := 86400 }
      none 0 = .ok 0 ∧ (0 : ℝ) ≠ 1 :=
  ⟨retrievability_nonpos_eq none 0 (le_refl 0), by norm_num⟩

/-- C10 (amended): for every non-new card with positive stability whose
`last_review` lies after the clock reading, the elapsed days are floored at
0, review succeeds with `elapsed_days = 0`, and retrievability evaluates to
exactly 1. -/
theorem C10_future_clock_amended (s : FSRSScheduler) (card : CardState)
    (g : ℤ) (now : ℝ) (hdr : s.desired_retention ≠ 0) (hnn : ¬card.is_new)
    (hS : 0 < card.stability) (hfuture : now < card.last_review)
    (hg1 : 1 ≤ g) (hg4 : g ≤ 4) :
    (∃ c, s.review card g now = .ok c ∧ c.elapsed_days = 0) ∧
    s.retrievability card none now = .ok 1 := by
  have helapsed : max ((now - card.last_review) / 86400) 0 = 0 := by
    apply max_eq_right
    rw [div_nonpos_iff]
    right
    constructor
    · linarith
    · norm_num
  constructor
  · refine ⟨reviewExistingVal s card g now, ?_, ?_⟩
    · unfold FSRSScheduler.review
      rw [if_neg (by simp only [RATING_AGAIN, RATING_EASY]; omega),
        if_neg hnn]
      exact review_existing_eq g now hdr hS
    · show max ((now - card.last_review) / 86400) 0 = 0
      exact helapsed
  · rw [retrievability_none_eq now hS, helapsed, retrVal_zero]

/-- Witness for the amended C10 at a card reviewed one day in the future. -/
theorem C10_future_clock_amended_witness :
    defaultScheduler.desired_retention ≠ 0 ∧
    ¬({ stability := 5, difficulty := 5, elapsed_days := 0,
        scheduled_days := 0, reps := 1, lapses := 0,
        last_review := 86400 } : CardState).is_new ∧
    (0:ℝ) < 5 ∧ (0:ℝ) < 86400 ∧ (1:ℤ) ≤ 3 ∧ (3:ℤ) ≤ 4 ∧
    ((∃ c, defaultScheduler.review
        { stability := 5, difficulty := 5, elapsed_days := 0,
          scheduled_days := 0, reps := 1, lapses := 0,
          last_review := 86400 } 3 0 = .ok c ∧ c.elapsed_days = 0) ∧
      defaultScheduler.retrievability
        { stability := 5, difficulty := 5, elapsed_days := 0,
          scheduled_days := 0, reps := 1, lapses := 0,
          last_review := 86400 } none 0 = .ok 1) :=
  ⟨default_dr_ne, by simp [CardState.is_new], by norm_num, by norm_num,
    by norm_num, by norm_num,
    C10_future_clock_amended defaultScheduler
      { stability := 5, difficulty := 5, elapsed_days := 0,
        scheduled_days := 0, reps := 1, lapses := 0, last_review := 86400 }
      3 0 default_dr_ne (by simp [CardState.is_new]) (by norm_num)
      (by norm_num) (by norm_num) (by norm_num)⟩

end
